import Mathlib

/-!
# Verification of the tradedesk position-reconciliation and risk-allocation core

Shallow embedding of `tradedesk/portfolio/reconciliation.py`,
`tradedesk/recording/journal.py`, `tradedesk/portfolio/metrics_tracker.py` and
`tradedesk/portfolio/performance_weighted.py`.

Modelling conventions:
* Python `float` is modelled as the exact rationals `ℚ` (the claims under
  scrutiny are about classification logic and exact arithmetic identities,
  not rounding of IEEE doubles).
* Python `dict` values are modelled as association lists (`List (k × v)`),
  with dict-comprehension "last writer wins" semantics made explicit where a
  source dict is built from a list that may repeat keys.
* Python `set[str]` is modelled as `List String` read up to membership;
  set union is modelled by concatenation followed by `dedup`.
* Exceptions on the broker call are modelled by passing the broker response
  as an `Except Unit (List BrokerPosition)` argument.
* Human-readable diagnostic strings built with f-string interpolation in the
  source are carried as their constant prefix text (the interpolated values
  are diagnostics only and no claim depends on them).
-/

namespace Tradedesk

/-- `tradedesk.execution.broker.Direction` (`"long"` / `"short"` enum). -/
inductive Direction where
  | long
  | short
deriving DecidableEq, Repr

/-- `Direction.value` -- the string payload of the Python `str`-enum. -/
def Direction.value : Direction → String
  | .long => "long"
  | .short => "short"

/-- `tradedesk.recording.journal.JournalEntry` (frozen dataclass).
`bars_held` is a Python `int`, hence `ℤ`. -/
structure JournalEntry where
  instrument : String
  direction : Option String  -- "long" or "short" or None if flat
  size : Option ℚ
  entry_price : Option ℚ
  bars_held : ℤ
  mfe_points : ℚ
  entry_atr : ℚ
  updated_at : String
deriving DecidableEq, Repr

/-- `tradedesk.execution.broker.BrokerPosition` (frozen dataclass). -/
structure BrokerPosition where
  instrument : String
  direction : String  -- "BUY" or "SELL" (broker-native)
  size : ℚ
  entry_price : ℚ
  deal_id : String
  currency : String := ""
  created_at : String := ""
deriving DecidableEq, Repr

/-- `tradedesk.portfolio.reconciliation.DiscrepancyType`. -/
inductive DiscrepancyType where
  | matched
  | orphan_broker
  | phantom_local
  | size_mismatch
  | direction_mismatch
  | failed_exit
deriving DecidableEq, Repr

/-- `tradedesk.portfolio.reconciliation.ReconciliationEntry` (frozen dataclass,
with the same field defaults as the source). -/
structure ReconciliationEntry where
  instrument : String
  discrepancy : DiscrepancyType
  journal_direction : Option String := none
  journal_size : Option ℚ := none
  broker_direction : Option String := none
  broker_size : Option ℚ := none
  broker_deal_id : Option String := none
  message : String := ""
deriving DecidableEq, Repr

/-- `tradedesk.portfolio.reconciliation.ReconciliationResult`. -/
structure ReconciliationResult where
  entries : List ReconciliationEntry
deriving DecidableEq, Repr

/-- `ReconciliationResult.is_clean`. -/
def ReconciliationResult.is_clean (r : ReconciliationResult) : Bool :=
  r.entries.all (fun e => e.discrepancy == DiscrepancyType.matched)

/-- `ReconciliationResult.has_emergencies`. -/
def ReconciliationResult.has_emergencies (r : ReconciliationResult) : Bool :=
  r.entries.any (fun e => e.discrepancy == DiscrepancyType.failed_exit)

/-- `ReconciliationResult.orphan_broker_positions`. -/
def ReconciliationResult.orphan_broker_positions
    (r : ReconciliationResult) : List ReconciliationEntry :=
  r.entries.filter (fun e => e.discrepancy == DiscrepancyType.orphan_broker)

/-- `ReconciliationResult.phantom_local_positions`. -/
def ReconciliationResult.phantom_local_positions
    (r : ReconciliationResult) : List ReconciliationEntry :=
  r.entries.filter (fun e => e.discrepancy == DiscrepancyType.phantom_local)

/-- The dict literal `{"long": "BUY", "short": "SELL"}` read through
`mapping.get(journal_dir, "")` in `_direction_matches`. -/
def directionMapGet (journal_dir : String) : String :=
  if journal_dir = "long" then "BUY"
  else if journal_dir = "short" then "SELL"
  else ""

/-- `tradedesk.portfolio.reconciliation._direction_matches`. -/
def directionMatches (journal_dir : Option String) (broker_dir : String) : Bool :=
  match journal_dir with
  | none => false
  | some jd => directionMapGet jd == broker_dir

/-- The size tolerance `1e-6` used by `reconcile`. -/
def sizeTolerance : ℚ := 1 / 1000000

/-- The filter over `broker_positions` restricting to `managed_instruments`
(the loop guard `if bp.instrument in managed_instruments`). -/
def filteredBroker (broker_positions : List BrokerPosition)
    (managed_instruments : List String) : List BrokerPosition :=
  broker_positions.filter (fun bp => managed_instruments.contains bp.instrument)

/-- The dict `broker_by_instrument` built inside `reconcile`: only managed
positions, later list entries overwriting earlier ones (Python dict
assignment), read through `.get`. -/
def brokerByInstrument (broker_positions : List BrokerPosition)
    (managed_instruments : List String) (instrument : String) :
    Option BrokerPosition :=
  (filteredBroker broker_positions managed_instruments).reverse.find?
    (fun bp => bp.instrument == instrument)

/-- `all_instruments = managed_instruments | set(broker_by_instrument.keys())`
(a Python set; modelled as a deduplicated list.  The source iterates it in
`sorted` order; no claim depends on the iteration order, only on the
resulting multiset of entries). -/
def allInstruments (managed_instruments : List String)
    (broker_positions : List BrokerPosition) : List String :=
  (managed_instruments ++
    (filteredBroker broker_positions managed_instruments).map
      (fun bp => bp.instrument)).dedup

/-- The body of the per-instrument classification loop of `reconcile`.
The source branches on the pair
`(journal_has_position, broker_has_position)` where `journal_has_position`
means the journal entry exists *and* carries a non-null direction; the
branch structure below is the same four-way split with the option payloads
unpacked by pattern matching instead of `assert`. -/
def classifyInstrument (journal_positions : String → Option JournalEntry)
    (broker_by : String → Option BrokerPosition)
    (instrument : String) : ReconciliationEntry :=
  match broker_by instrument with
  | none =>
    match journal_positions instrument with
    | some je =>
      match je.direction with
      | some jd =>
        -- journal has position but broker does not
        { instrument := instrument
          discrepancy := DiscrepancyType.phantom_local
          journal_direction := some jd
          journal_size := je.size
          message := "Journal has position but broker does not (was it closed externally?)" }
      | none =>
        -- both flat
        { instrument := instrument
          discrepancy := DiscrepancyType.matched }
    | none =>
      -- both flat
      { instrument := instrument
        discrepancy := DiscrepancyType.matched }
  | some bp =>
    match journal_positions instrument with
    | some je =>
      match je.direction with
      | some jd =>
        -- both have a position -- check details
        if ¬ directionMatches (some jd) bp.direction then
          { instrument := instrument
            discrepancy := DiscrepancyType.direction_mismatch
            journal_direction := some jd
            journal_size := je.size
            broker_direction := some bp.direction
            broker_size := some bp.size
            broker_deal_id := some bp.deal_id
            message := "Direction mismatch" }
        else if |je.size.getD 0 - bp.size| > sizeTolerance then
          { instrument := instrument
            discrepancy := DiscrepancyType.size_mismatch
            journal_direction := some jd
            journal_size := je.size
            broker_direction := some bp.direction
            broker_size := some bp.size
            broker_deal_id := some bp.deal_id
            message := "Size mismatch" }
        else
          { instrument := instrument
            discrepancy := DiscrepancyType.matched
            journal_direction := some jd
            journal_size := je.size
            broker_direction := some bp.direction
            broker_size := some bp.size
            broker_deal_id := some bp.deal_id }
      | none =>
        -- journal entry exists with direction=None: an exit was attempted
        -- but broker still has the position => FAILED_EXIT
        { instrument := instrument
          discrepancy := DiscrepancyType.failed_exit
          broker_direction := some bp.direction
          broker_size := some bp.size
          broker_deal_id := some bp.deal_id
          message := "EMERGENCY: Journal records flat but broker has position (failed exit?)" }
    | none =>
      -- no journal entry at all for a live broker position => ORPHAN_BROKER
      { instrument := instrument
        discrepancy := DiscrepancyType.orphan_broker
        broker_direction := some bp.direction
        broker_size := some bp.size
        broker_deal_id := some bp.deal_id
        message := "Broker has position not tracked in journal" }

/-- `tradedesk.portfolio.reconciliation.reconcile`. -/
def reconcile (journal_positions : String → Option JournalEntry)
    (broker_positions : List BrokerPosition)
    (managed_instruments : List String) : ReconciliationResult :=
  { entries :=
      (allInstruments managed_instruments broker_positions).map
        (classifyInstrument journal_positions
          (brokerByInstrument broker_positions managed_instruments)) }

theorem classifyInstrument_instrument (j : String → Option JournalEntry)
    (b : String → Option BrokerPosition) (i : String) :
    (classifyInstrument j b i).instrument = i := by
  cases hb : b i with
  | none =>
    cases hj : j i with
    | none => simp [classifyInstrument, hb, hj]
    | some je => cases hd : je.direction <;> simp [classifyInstrument, hb, hj, hd]
  | some bp =>
    cases hj : j i with
    | none => simp [classifyInstrument, hb, hj]
    | some je =>
      cases hd : je.direction with
      | none => simp [classifyInstrument, hb, hj, hd]
      | some jd =>
        simp only [classifyInstrument, hb, hj, hd]
        split
        · rfl
        · split <;> rfl

theorem find?_beq_self {l : List String} {i : String} (hi : i ∈ l) :
    l.find? (fun x => x == i) = some i := by
  induction l with
  | nil => cases hi
  | cons a l ih =>
    by_cases ha : a = i
    · subst ha
      simp [List.find?]
    · have hil : i ∈ l := by
        cases hi with
        | head => exact absurd rfl ha
        | tail _ h => exact h
      have hbeq : (a == i) = false := by
        simp [ha]
      simp [List.find?, hbeq, ih hil]

/-- The entry `reconcile` produces for a particular instrument is the
classification of that instrument. -/
theorem reconcile_find? (j : String → Option JournalEntry)
    (b : List BrokerPosition) (m : List String) (i : String)
    (hi : i ∈ allInstruments m b) :
    (reconcile j b m).entries.find? (fun e => e.instrument == i) =
      some (classifyInstrument j (brokerByInstrument b m) i) := by
  unfold reconcile
  rw [List.find?_map]
  have hfun : ((fun e : ReconciliationEntry => e.instrument == i) ∘
      classifyInstrument j (brokerByInstrument b m)) = (fun x => x == i) := by
    funext x
    simp [Function.comp, classifyInstrument_instrument]
  rw [hfun, find?_beq_self hi]
  rfl

theorem mem_allInstruments_of_mem_managed {m : List String}
    {b : List BrokerPosition} {i : String} (hm : i ∈ m) :
    i ∈ allInstruments m b := by
  unfold allInstruments
  rw [List.mem_dedup]
  exact List.mem_append_left _ hm

/-- C1: a managed instrument with a live broker position and no open journal
position is classified `FAILED_EXIT` when the journal holds an explicit flat
entry (`direction = None`), and `ORPHAN_BROKER` when the journal holds no
entry for it at all. -/
theorem reconcile_failedExit_vs_orphan
    (j : String → Option JournalEntry) (b : List BrokerPosition)
    (m : List String) (i : String) (bp : BrokerPosition)
    (hm : i ∈ m) (hb : brokerByInstrument b m i = some bp) :
    (∀ je : JournalEntry, j i = some je → je.direction = none →
      (((reconcile j b m).entries.find? (fun e => e.instrument == i)).map
          ReconciliationEntry.discrepancy) = some DiscrepancyType.failed_exit) ∧
    (j i = none →
      (((reconcile j b m).entries.find? (fun e => e.instrument == i)).map
          ReconciliationEntry.discrepancy) = some DiscrepancyType.orphan_broker) := by
  have hfind := reconcile_find? j b m i (mem_allInstruments_of_mem_managed hm)
  constructor
  · intro je hj hd
    rw [hfind]
    simp [classifyInstrument, hb, hj, hd]
  · intro hj
    rw [hfind]
    simp [classifyInstrument, hb, hj]

/-- Concrete journal for the C1 witness: explicit flat entry for "A",
nothing for "B". -/
def flatEntryA : JournalEntry :=
  { instrument := "A", direction := none, size := none, entry_price := none,
    bars_held := 0, mfe_points := 0, entry_atr := 0, updated_at := "" }

/-- Concrete journal map for the C1 witness. -/
def journalC1 : String → Option JournalEntry :=
  fun i => if i = "A" then some flatEntryA else none

/-- Concrete broker position on "A" for the C1 witness. -/
def brokerPosA : BrokerPosition :=
  { instrument := "A", direction := "BUY", size := 2, entry_price := 100,
    deal_id := "d1" }

/-- Concrete broker position on "B" for the C1 witness. -/
def brokerPosB : BrokerPosition :=
  { instrument := "B", direction := "SELL", size := 1, entry_price := 50,
    deal_id := "d2" }

/-- Witness for `reconcile_failedExit_vs_orphan`: a concrete journal with an
explicit flat entry for "A" and no entry for "B", both with broker
positions. -/
theorem reconcile_failedExit_vs_orphan_witness :
    (((reconcile journalC1 [brokerPosA, brokerPosB] ["A", "B"]).entries.find?
        (fun e => e.instrument == "A")).map ReconciliationEntry.discrepancy) =
      some DiscrepancyType.failed_exit ∧
    (((reconcile journalC1 [brokerPosA, brokerPosB] ["A", "B"]).entries.find?
        (fun e => e.instrument == "B")).map ReconciliationEntry.discrepancy) =
      some DiscrepancyType.orphan_broker := by
  constructor
  · exact (reconcile_failedExit_vs_orphan journalC1 [brokerPosA, brokerPosB]
      ["A", "B"] "A" brokerPosA (by decide) (by decide)).1 flatEntryA rfl rfl
  · exact (reconcile_failedExit_vs_orphan journalC1 [brokerPosA, brokerPosB]
      ["A", "B"] "B" brokerPosB (by decide) (by decide)).2 rfl

theorem reconcile_entries_map_instrument (j : String → Option JournalEntry)
    (b : List BrokerPosition) (m : List String) :
    (reconcile j b m).entries.map ReconciliationEntry.instrument =
      allInstruments m b := by
  unfold reconcile
  rw [List.map_map]
  have hcomp : (ReconciliationEntry.instrument ∘
      classifyInstrument j (brokerByInstrument b m)) = id := by
    funext x
    exact classifyInstrument_instrument j (brokerByInstrument b m) x
  rw [hcomp, List.map_id]

theorem mem_allInstruments_iff (m : List String) (b : List BrokerPosition)
    (i : String) : i ∈ allInstruments m b ↔ i ∈ m := by
  unfold allInstruments
  rw [List.mem_dedup, List.mem_append]
  constructor
  · rintro (h | h)
    · exact h
    · obtain ⟨bp, hbp, rfl⟩ := List.mem_map.mp h
      have hcontains := (List.mem_filter.mp hbp).2
      simpa using hcontains
  · intro h
    exact Or.inl h

/-- C6: the instruments appearing in `reconcile`'s result are exactly the
managed instruments, each exactly once; a broker position outside the
managed set never produces an entry, and every managed instrument produces
one even with only a broker-side position. -/
theorem reconcile_instruments_exactly_managed
    (j : String → Option JournalEntry) (b : List BrokerPosition)
    (m : List String) :
    ((reconcile j b m).entries.map ReconciliationEntry.instrument).Nodup ∧
    (∀ i : String,
      i ∈ (reconcile j b m).entries.map ReconciliationEntry.instrument ↔
        i ∈ m) := by
  rw [reconcile_entries_map_instrument]
  exact ⟨List.nodup_dedup _, fun i => mem_allInstruments_iff m b i⟩

/-- C7 counterexample: the journal direction `"flat"` (neither `"long"` nor
`"short"`) *does* match the broker direction `""`, because
`_direction_matches` compares `mapping.get(journal_dir, "")` -- which is the
empty string for unknown journal directions -- with the broker string.  So a
broker direction other than "BUY"/"SELL" (namely the empty string) can
match, contrary to the claim. -/
theorem directionMatches_claim_counterexample :
    directionMatches (some "flat") "" = true ∧
    ¬((some "flat" = some "long" ∧ "" = "BUY") ∨
      (some "flat" = some "short" ∧ "" = "SELL")) := by
  decide

/-- C7 amended: `_direction_matches` returns true iff the pair is
(`"long"`, `"BUY"`) or (`"short"`, `"SELL"`), **or** the journal direction is
present but neither `"long"` nor `"short"` while the broker direction is the
empty string.  In particular a null journal direction never matches, and a
broker direction other than `"BUY"`, `"SELL"` or `""` never matches. -/
theorem directionMatches_characterization (jd : Option String) (bd : String) :
    directionMatches jd bd = true ↔
      ((jd = some "long" ∧ bd = "BUY") ∨ (jd = some "short" ∧ bd = "SELL") ∨
        (∃ s, jd = some s ∧ s ≠ "long" ∧ s ≠ "short" ∧ bd = "")) := by
  cases jd with
  | none => simp [directionMatches]
  | some s =>
    simp only [directionMatches, directionMapGet, beq_iff_eq,
      Option.some.injEq]
    by_cases hl : s = "long"
    · subst hl
      simp only [if_pos rfl]
      constructor
      · intro h
        exact Or.inl ⟨trivial, h.symm⟩
      · rintro (⟨-, h⟩ | ⟨h, -⟩ | ⟨s', hs', hne, -, -⟩)
        · exact h.symm
        · exact absurd h (by decide)
        · exact absurd hs'.symm hne
    · by_cases hsh : s = "short"
      · subst hsh
        simp only [if_neg (by decide : ¬("short" = "long")), if_pos rfl]
        constructor
        · intro h
          exact Or.inr (Or.inl ⟨trivial, h.symm⟩)
        · rintro (⟨h, -⟩ | ⟨-, h⟩ | ⟨s', hs', -, hne, -⟩)
          · exact absurd h (by decide)
          · exact h.symm
          · exact absurd hs'.symm hne
      · simp only [if_neg hl, if_neg hsh]
        constructor
        · intro h
          exact Or.inr (Or.inr ⟨s, rfl, hl, hsh, h.symm⟩)
        · rintro (⟨h, -⟩ | ⟨h, -⟩ | ⟨s', hs', -, -, h⟩)
          · exact absurd h hl
          · exact absurd h hsh
          · exact h.symm

/-- Journal map for the C3 counterexample: instrument "A" carries an open
position whose direction string is `"weird"` (neither "long" nor "short"). -/
def journalC3 : String → Option JournalEntry :=
  fun i => if i = "A" then
    some { instrument := "A", direction := some "weird", size := some 1,
           entry_price := some 100, bars_held := 3, mfe_points := 0,
           entry_atr := 0, updated_at := "" }
  else none

/-- Broker position for the C3 counterexample: direction is the empty
string. -/
def brokerPosC3 : BrokerPosition :=
  { instrument := "A", direction := "", size := 1, entry_price := 100,
    deal_id := "d3" }

/-- C3 counterexample: with journal direction `"weird"` and broker direction
`""` the directions do not correspond (neither long/BUY nor short/SELL), yet
`reconcile` classifies the instrument MATCHED, not DIRECTION_MISMATCH --
`_direction_matches` maps any unknown journal direction to `""`. -/
theorem reconcile_direction_claim_counterexample :
    (((reconcile journalC3 [brokerPosC3] ["A"]).entries.find?
        (fun e => e.instrument == "A")).map ReconciliationEntry.discrepancy) =
      some DiscrepancyType.matched ∧
    ¬((some "weird" = some "long" ∧ "" = "BUY") ∨
      (some "weird" = some "short" ∧ "" = "SELL")) := by
  constructor
  · have hfind := reconcile_find? journalC3 [brokerPosC3] ["A"] "A"
      (mem_allInstruments_of_mem_managed (by decide))
    rw [hfind]
    have hb : brokerByInstrument [brokerPosC3] ["A"] "A" = some brokerPosC3 := by
      decide
    have habs : ¬(sizeTolerance < |(1 : ℚ) - 1|) := by
      norm_num [sizeTolerance]
    simp only [classifyInstrument, journalC3]
    rw [hb]
    simp [brokerPosC3, directionMatches, directionMapGet, habs]
    norm_num [sizeTolerance]
  · decide

/-- C3 amended: for a managed instrument open on both sides, **with the
journal direction one of "long"/"short"**: corresponding directions and a
size gap of at most 1e-6 yield MATCHED; corresponding directions with a
larger gap yield SIZE_MISMATCH; non-corresponding directions yield
DIRECTION_MISMATCH regardless of size.  (Without the long/short restriction
the third clause fails: see `reconcile_direction_claim_counterexample`.) -/
theorem reconcile_bothOpen_classification
    (j : String → Option JournalEntry) (b : List BrokerPosition)
    (m : List String) (i : String) (je : JournalEntry) (bp : BrokerPosition)
    (jd : String) (sz : ℚ)
    (hm : i ∈ m) (hj : j i = some je) (hd : je.direction = some jd)
    (hdl : jd = "long" ∨ jd = "short") (hs : je.size = some sz)
    (hb : brokerByInstrument b m i = some bp) :
    (((jd = "long" ∧ bp.direction = "BUY") ∨
      (jd = "short" ∧ bp.direction = "SELL")) →
        (|sz - bp.size| ≤ sizeTolerance →
          (((reconcile j b m).entries.find? (fun e => e.instrument == i)).map
            ReconciliationEntry.discrepancy) = some DiscrepancyType.matched) ∧
        (|sz - bp.size| > sizeTolerance →
          (((reconcile j b m).entries.find? (fun e => e.instrument == i)).map
            ReconciliationEntry.discrepancy) =
              some DiscrepancyType.size_mismatch)) ∧
    (¬((jd = "long" ∧ bp.direction = "BUY") ∨
      (jd = "short" ∧ bp.direction = "SELL")) →
        (((reconcile j b m).entries.find? (fun e => e.instrument == i)).map
          ReconciliationEntry.discrepancy) =
            some DiscrepancyType.direction_mismatch) := by
  have hfind := reconcile_find? j b m i (mem_allInstruments_of_mem_managed hm)
  constructor
  · intro hcorr
    have hdm : directionMatches (some jd) bp.direction = true := by
      rcases hcorr with ⟨rfl, hbd⟩ | ⟨rfl, hbd⟩ <;>
        simp [directionMatches, directionMapGet, hbd]
    constructor
    · intro hle
      rw [hfind]
      simp [classifyInstrument, hb, hj, hd, hdm, hs, not_lt.mpr hle]
    · intro hgt
      rw [hfind]
      simp [classifyInstrument, hb, hj, hd, hdm, hs, hgt]
  · intro hncorr
    have hdm : directionMatches (some jd) bp.direction = false := by
      rcases hdl with rfl | rfl
      · have hbd : ¬("BUY" = bp.direction) := by
          intro h
          exact hncorr (Or.inl ⟨rfl, h.symm⟩)
        simp [directionMatches, directionMapGet, hbd]
      · have hbd : ¬("SELL" = bp.direction) := by
          intro h
          exact hncorr (Or.inr ⟨rfl, h.symm⟩)
        simp [directionMatches, directionMapGet, hbd]
    rw [hfind]
    simp [classifyInstrument, hb, hj, hd, hdm]

/-- Journal for the C3 witness: "A" open long size 2. -/
def journalC3w : String → Option JournalEntry :=
  fun i => if i = "A" then
    some { instrument := "A", direction := some "long", size := some 2,
           entry_price := some 100, bars_held := 1, mfe_points := 0,
           entry_atr := 0, updated_at := "" }
  else none

/-- Broker side for the C3 witness: BUY, size 3 (mismatch beyond 1e-6). -/
def brokerPosC3w : BrokerPosition :=
  { instrument := "A", direction := "BUY", size := 3, entry_price := 100,
    deal_id := "d4" }

/-- Witness for `reconcile_bothOpen_classification`: journal long 2 vs
broker BUY 3 is a SIZE_MISMATCH. -/
theorem reconcile_bothOpen_classification_witness :
    (((reconcile journalC3w [brokerPosC3w] ["A"]).entries.find?
        (fun e => e.instrument == "A")).map ReconciliationEntry.discrepancy) =
      some DiscrepancyType.size_mismatch := by
  exact ((reconcile_bothOpen_classification journalC3w [brokerPosC3w] ["A"]
      "A" _ brokerPosC3w "long" 2 (by decide) rfl rfl (Or.inl rfl) rfl
      (by decide)).1 (Or.inl ⟨rfl, rfl⟩)).2
      (by norm_num [brokerPosC3w, sizeTolerance])

/-! ## `tradedesk.recording.journal.PositionJournal`

The on-disk file is modelled as the JSON document tree that
`json.dumps`/`json.loads` serialize: `save` produces the document,
`load` parses it.  Python `int` and `float` are distinct JSON leaf kinds.
The directory handling, temp-file rename and file absence are not part of
the round-trip claim and are not modelled. -/

/-- A JSON document as held by Python's `json` module. -/
inductive Json where
  | null
  | str (s : String)
  | int (z : ℤ)
  | num (q : ℚ)
  | arr (xs : List Json)
  | obj (kvs : List (String × Json))

/-- Python `dict` lookup on a JSON object (first binding wins; the dicts
built here never repeat a key). -/
def jsonGet (kvs : List (String × Json)) (k : String) : Option Json :=
  (kvs.find? (fun p => p.1 == k)).map Prod.snd

/-- Serialize an optional value, `None` becoming JSON `null`. -/
def optJson (f : α → Json) : Option α → Json
  | none => Json.null
  | some x => f x

/-- `dataclasses.asdict` on a `JournalEntry`, in field order. -/
def entryToJson (e : JournalEntry) : Json :=
  .obj [("instrument", .str e.instrument),
        ("direction", optJson .str e.direction),
        ("size", optJson .num e.size),
        ("entry_price", optJson .num e.entry_price),
        ("bars_held", .int e.bars_held),
        ("mfe_points", .num e.mfe_points),
        ("entry_atr", .num e.entry_atr),
        ("updated_at", .str e.updated_at)]

/-- `PositionJournal.save`: the JSON document written to disk (the
atomic temp-file/rename mechanics carry this value unchanged). -/
def journalSave (created_at : String) (entries : List JournalEntry) : Json :=
  .obj [("version", .int 1),
        ("created_at", .str created_at),
        ("positions", .arr (entries.map entryToJson))]

/-- Decode a JSON leaf as a Python `str`. -/
def jsonStr? : Json → Option String
  | .str s => some s
  | _ => none

/-- Decode a JSON leaf as `str | None`. -/
def jsonOptStr? : Json → Option (Option String)
  | .null => some none
  | .str s => some (some s)
  | _ => none

/-- Decode a JSON leaf as `float | None`. -/
def jsonOptNum? : Json → Option (Option ℚ)
  | .null => some none
  | .num q => some (some q)
  | _ => none

/-- Decode a JSON leaf as a Python `int`. -/
def jsonInt? : Json → Option ℤ
  | .int z => some z
  | _ => none

/-- Decode a JSON leaf as a Python `float`. -/
def jsonNum? : Json → Option ℚ
  | .num q => some q
  | _ => none

/-- One element of the `positions` array, parsed as
`JournalEntry(**e)` after the backward-compat rename of a legacy `"epic"`
key to `"instrument"`.  Construction by keyword is modelled as
field-by-field typed extraction; a missing field (Python `TypeError`,
caught by `load`'s `except`) is `none`. -/
def parseEntry (j : Json) : Option JournalEntry :=
  match j with
  | .obj kvs0 =>
    -- Backward compat: rename legacy "epic" key to "instrument"
    let kvs :=
      match jsonGet kvs0 "epic", jsonGet kvs0 "instrument" with
      | some v, none =>
        (kvs0.filter (fun p => ¬(p.1 == "epic"))) ++ [("instrument", v)]
      | _, _ => kvs0
    do
      let instrument ← jsonGet kvs "instrument" >>= jsonStr?
      let direction ← jsonGet kvs "direction" >>= jsonOptStr?
      let size ← jsonGet kvs "size" >>= jsonOptNum?
      let entry_price ← jsonGet kvs "entry_price" >>= jsonOptNum?
      let bars_held ← jsonGet kvs "bars_held" >>= jsonInt?
      let mfe_points ← jsonGet kvs "mfe_points" >>= jsonNum?
      let entry_atr ← jsonGet kvs "entry_atr" >>= jsonNum?
      let updated_at ← jsonGet kvs "updated_at" >>= jsonStr?
      pure { instrument := instrument, direction := direction, size := size,
             entry_price := entry_price, bars_held := bars_held,
             mfe_points := mfe_points, entry_atr := entry_atr,
             updated_at := updated_at }
  | _ => none

/-- The `for e in data.get("positions", [])` loop of `load`: each element is
parsed in order; any failure aborts the whole load (the source's `except`
turns it into `None`). -/
def parseEntries : List Json → Option (List JournalEntry)
  | [] => some []
  | x :: xs =>
    match parseEntry x, parseEntries xs with
    | some e, some es => some (e :: es)
    | _, _ => none

/-- `PositionJournal.load` on a present journal document. -/
def journalLoad (doc : Json) : Option (List JournalEntry) :=
  match doc with
  | .obj kvs =>
    match (jsonGet kvs "positions").getD (.arr []) with
    | .arr xs => parseEntries xs
    | _ => none
  | _ => none

theorem parseEntry_entryToJson (e : JournalEntry) :
    parseEntry (entryToJson e) = some e := by
  cases e with
  | mk instrument direction size entry_price bars_held mfe_points entry_atr
      updated_at =>
    cases direction <;> cases size <;> cases entry_price <;> rfl

theorem parseEntries_map_entryToJson (entries : List JournalEntry) :
    parseEntries (entries.map entryToJson) = some entries := by
  induction entries with
  | nil => rfl
  | cons e es ih =>
    simp [parseEntries, parseEntry_entryToJson, ih]

/-- C4: `save` followed by `load` round-trips every `JournalEntry`
field-for-field, including flat entries with null direction, size and entry
price. -/
theorem journal_save_load_roundtrip (created_at : String)
    (entries : List JournalEntry) :
    journalLoad (journalSave created_at entries) = some entries := by
  have hdoc : journalLoad (journalSave created_at entries) =
      parseEntries (entries.map entryToJson) := rfl
  rw [hdoc]
  exact parseEntries_map_entryToJson entries

/-! ## `tradedesk.portfolio.metrics_tracker.WeightedRollingTracker` -/

/-- One closed-trade record of an instrument window.  The trade dicts carry
several bookkeeping keys, but the weighting and metrics code reads only
`trade["pnl"]`, so that is the only field modelled. -/
structure Trade where
  pnl : ℚ
deriving DecidableEq, Repr

/-- `third_size = n // 3` in `_apply_decay_weights`. -/
def thirdSize (n : ℕ) : ℕ := n / 3

/-- `old_size = third_size + (1 if remainder > 0 else 0)`. -/
def oldSize (n : ℕ) : ℕ := thirdSize n + (if n % 3 > 0 then 1 else 0)

/-- `mid_size = third_size + (1 if remainder > 1 else 0)`. -/
def midSize (n : ℕ) : ℕ := thirdSize n + (if n % 3 > 1 then 1 else 0)

/-- The `for i, trade in enumerate(trades)` loop of `_apply_decay_weights`:
`i` is the running index, oldest trades first.  `decay_weights` is
`(recent, middle, old)` as in the source dataclass. -/
def applyDecayGo (decay_weights : ℚ × ℚ × ℚ) (old_end mid_end : ℕ) :
    ℕ → List Trade → List ℚ
  | _, [] => []
  | i, t :: ts =>
    (t.pnl * (if i < old_end then decay_weights.2.2
              else if i < mid_end then decay_weights.2.1
              else decay_weights.1)) ::
      applyDecayGo decay_weights old_end mid_end (i + 1) ts

/-- `WeightedRollingTracker._apply_decay_weights`. -/
def applyDecayWeights (decay_weights : ℚ × ℚ × ℚ) (trades : List Trade) :
    List ℚ :=
  let n := trades.length
  if n = 0 then []
  else
    let old_end := oldSize n
    let mid_end := old_end + midSize n
    applyDecayGo decay_weights old_end mid_end 0 trades

theorem applyDecayGo_append (dw : ℚ × ℚ × ℚ) (oe me : ℕ)
    (as bs : List Trade) (i : ℕ) :
    applyDecayGo dw oe me i (as ++ bs) =
      applyDecayGo dw oe me i as ++
        applyDecayGo dw oe me (i + as.length) bs := by
  induction as generalizing i with
  | nil => simp [applyDecayGo]
  | cons a as ih =>
    simp [applyDecayGo, ih, Nat.add_assoc, Nat.add_comm 1 as.length]

theorem applyDecayGo_old (dw : ℚ × ℚ × ℚ) (oe me : ℕ) (ts : List Trade)
    (i : ℕ) (h : i + ts.length ≤ oe) :
    applyDecayGo dw oe me i ts = ts.map (fun t => t.pnl * dw.2.2) := by
  induction ts generalizing i with
  | nil => rfl
  | cons t ts ih =>
    have hi : i < oe := by
      simp at h
      omega
    simp [applyDecayGo, hi, ih (i + 1) (by simp at h ⊢; omega)]

theorem applyDecayGo_mid (dw : ℚ × ℚ × ℚ) (oe me : ℕ) (ts : List Trade)
    (i : ℕ) (h1 : oe ≤ i) (h2 : i + ts.length ≤ me) :
    applyDecayGo dw oe me i ts = ts.map (fun t => t.pnl * dw.2.1) := by
  induction ts generalizing i with
  | nil => rfl
  | cons t ts ih =>
    have hi1 : ¬(i < oe) := by omega
    have hi2 : i < me := by
      simp at h2
      omega
    simp [applyDecayGo, hi1, hi2,
      ih (i + 1) (by omega) (by simp at h2 ⊢; omega)]

theorem applyDecayGo_recent (dw : ℚ × ℚ × ℚ) (oe me : ℕ) (ts : List Trade)
    (i : ℕ) (hoe : oe ≤ me) (h : me ≤ i) :
    applyDecayGo dw oe me i ts = ts.map (fun t => t.pnl * dw.1) := by
  induction ts generalizing i with
  | nil => rfl
  | cons t ts ih =>
    have hi1 : ¬(i < oe) := by omega
    have hi2 : ¬(i < me) := by omega
    simp [applyDecayGo, hi1, hi2, ih (i + 1) (by omega)]

/-- C9: `_apply_decay_weights` weighs the window as three contiguous
chronological thirds -- the oldest `oldSize n` trades by the third weight,
the next `midSize n` by the second, the final `n / 3` (the recent third,
which remainder trades never enlarge) by the first -- and on a 9-trade
window with weights `(0.6, 0.3, 0.1)` the weight sequence applied oldest to
newest is `(0.1, 0.1, 0.1, 0.3, 0.3, 0.3, 0.6, 0.6, 0.6)`. -/
theorem applyDecayWeights_thirds (dw : ℚ × ℚ × ℚ) (ts : List Trade)
    (p1 p2 p3 p4 p5 p6 p7 p8 p9 : ℚ) :
    (applyDecayWeights dw ts =
      (ts.take (oldSize ts.length)).map (fun t => t.pnl * dw.2.2) ++
        ((ts.drop (oldSize ts.length)).take (midSize ts.length)).map
          (fun t => t.pnl * dw.2.1) ++
        (ts.drop (oldSize ts.length + midSize ts.length)).map
          (fun t => t.pnl * dw.1)) ∧
    (ts.length - (oldSize ts.length + midSize ts.length) = ts.length / 3 ∧
      midSize ts.length ≤ oldSize ts.length ∧
      ts.length / 3 ≤ midSize ts.length ∧
      oldSize ts.length ≤ ts.length / 3 + 1) ∧
    applyDecayWeights ((3 : ℚ)/5, (3 : ℚ)/10, (1 : ℚ)/10)
        [⟨p1⟩, ⟨p2⟩, ⟨p3⟩, ⟨p4⟩, ⟨p5⟩, ⟨p6⟩, ⟨p7⟩, ⟨p8⟩, ⟨p9⟩] =
      [p1 * ((1 : ℚ)/10), p2 * ((1 : ℚ)/10), p3 * ((1 : ℚ)/10),
       p4 * ((3 : ℚ)/10), p5 * ((3 : ℚ)/10), p6 * ((3 : ℚ)/10),
       p7 * ((3 : ℚ)/5), p8 * ((3 : ℚ)/5), p9 * ((3 : ℚ)/5)] := by
  refine ⟨?_, ⟨?_, ?_, ?_, ?_⟩, ?_⟩
  · by_cases hn : ts.length = 0
    · have hnil : ts = [] := List.length_eq_zero.mp hn
      subst hnil
      rfl
    · have hsum : oldSize ts.length + midSize ts.length ≤ ts.length := by
        simp only [oldSize, midSize, thirdSize]
        split_ifs <;> omega
      have hlen1 : (ts.take (oldSize ts.length)).length =
          oldSize ts.length := by
        rw [List.length_take]
        omega
      have hlen2 : ((ts.drop (oldSize ts.length)).take
          (midSize ts.length)).length = midSize ts.length := by
        rw [List.length_take, List.length_drop]
        omega
      have hts : ts = ts.take (oldSize ts.length) ++
          ((ts.drop (oldSize ts.length)).take (midSize ts.length) ++
            ts.drop (oldSize ts.length + midSize ts.length)) := by
        conv_lhs => rw [← List.take_append_drop (oldSize ts.length) ts]
        congr 1
        conv_lhs => rw [← List.take_append_drop (midSize ts.length)
          (ts.drop (oldSize ts.length))]
        rw [List.drop_drop, Nat.add_comm]
      have hgo : ∀ oe me : ℕ, oe = oldSize ts.length →
          me = oldSize ts.length + midSize ts.length →
          applyDecayGo dw oe me 0 ts =
          (ts.take (oldSize ts.length)).map (fun t => t.pnl * dw.2.2) ++
            ((ts.drop (oldSize ts.length)).take (midSize ts.length)).map
              (fun t => t.pnl * dw.2.1) ++
            (ts.drop (oldSize ts.length + midSize ts.length)).map
              (fun t => t.pnl * dw.1) := by
        intro oe me hoe hme
        conv_lhs => rw [hts]
        subst hoe
        subst hme
        rw [applyDecayGo_append, applyDecayGo_append]
        simp only [Nat.zero_add, hlen1, hlen2]
        rw [applyDecayGo_old dw _ _ _ 0 (le_of_eq (by rw [Nat.zero_add, hlen1])),
          applyDecayGo_mid dw _ _ _ _ (Nat.le_refl _) (le_of_eq (by rw [hlen2])),
          applyDecayGo_recent dw _ _ _ _ (Nat.le_add_right _ _)
            (Nat.le_refl _),
          ← List.append_assoc]
      calc applyDecayWeights dw ts
          = applyDecayGo dw (oldSize ts.length)
              (oldSize ts.length + midSize ts.length) 0 ts := by
            simp only [applyDecayWeights]
            rw [if_neg hn]
        _ = _ := hgo _ _ rfl rfl
  · simp only [oldSize, midSize, thirdSize]
    split_ifs <;> omega
  · simp only [oldSize, midSize, thirdSize]
    split_ifs <;> omega
  · simp only [oldSize, midSize, thirdSize]
    split_ifs <;> omega
  · simp only [oldSize, midSize, thirdSize]
    split_ifs <;> omega
  · simp [applyDecayWeights, applyDecayGo, oldSize, midSize, thirdSize]

/-! ## `tradedesk.portfolio.performance_weighted.PerformanceWeightedRiskPolicy`

Python dicts built by comprehension/assignment are modelled through
`dictInsert`/`dictOf`: an existing key is overwritten in place, a new key is
appended, matching dict insertion-order semantics. -/

/-- Python dict assignment `d[k] = v`. -/
def dictInsert (kvs : List (String × α)) (k : String) (v : α) :
    List (String × α) :=
  if kvs.any (fun p => p.1 == k) then
    kvs.map (fun p => if p.1 == k then (k, v) else p)
  else kvs ++ [(k, v)]

/-- A dict built by inserting the pairs of `l` in order. -/
def dictOf (l : List (String × α)) : List (String × α) :=
  l.foldl (fun acc p => dictInsert acc p.1 p.2) []

/-- Python `d.get(k)`. -/
def dictGet (kvs : List (String × α)) (k : String) : Option α :=
  (kvs.find? (fun p => p.1 == k)).map Prod.snd

/-- The metrics dict `compute_metrics` yields per instrument. -/
structure Metrics where
  return_to_risk_ratio : ℚ
  total_trades : ℕ
  weighted_pnl : ℚ
deriving DecidableEq, Repr

/-- `WeightedRollingTracker._empty_metrics`. -/
def emptyMetrics : Metrics :=
  { return_to_risk_ratio := 0, total_trades := 0, weighted_pnl := 0 }

/-- The part of a `WeightedRollingTracker` that `compute_metrics` reads:
the per-instrument windows (`_windows`, trades oldest first), the decay
weight triple, and the metrics cache (`_cached_metrics`). -/
structure TrackerState where
  windows : List (String × List Trade)
  decay_weights : ℚ × ℚ × ℚ := (6/10, 3/10, 1/10)
  cached_metrics : Option (List (String × Metrics)) := none

/-- The per-window body of the recompute loop in `compute_metrics`. -/
def windowMetrics (dw : ℚ × ℚ × ℚ) (trades : List Trade) : Metrics :=
  if trades.length = 0 then emptyMetrics
  else
    let weighted_pnls := applyDecayWeights dw trades
    let total_weighted_pnl := weighted_pnls.sum
    let total_weighted_risk := (weighted_pnls.map (fun p => |p|)).sum
    let return_to_risk :=
      if total_weighted_risk > 0 then total_weighted_pnl / total_weighted_risk
      else 0
    { return_to_risk_ratio := return_to_risk,
      total_trades := trades.length,
      weighted_pnl := total_weighted_pnl }

/-- The recompute path of `compute_metrics`: fresh metrics for all windowed
instruments, the result for the requested ones (`all_metrics.get` with the
empty default), and the refreshed cache. -/
def computeFresh (st : TrackerState) (instruments : List String) :
    List (String × Metrics) × TrackerState :=
  let all_metrics :=
    dictOf (st.windows.map (fun p => (p.1, windowMetrics st.decay_weights p.2)))
  (dictOf (instruments.map
      (fun i => (i, (dictGet all_metrics i).getD emptyMetrics))),
    { st with cached_metrics := some all_metrics })

/-- `WeightedRollingTracker.compute_metrics`.  Served from the cache when
every requested instrument is cached, recomputed otherwise.  (The cached
values are known present on the cache path, so the `getD` default is
unreachable there.) -/
def computeMetrics (st : TrackerState) (instruments : List String) :
    List (String × Metrics) × TrackerState :=
  match st.cached_metrics with
  | some cache =>
    if instruments.all (fun i => (dictGet cache i).isSome) then
      (dictOf (instruments.map
          (fun i => (i, (dictGet cache i).getD emptyMetrics))), st)
    else computeFresh st instruments
  | none => computeFresh st instruments

/-- The configuration fields of `PerformanceWeightedRiskPolicy` read by
`allocate` (the tracker is passed alongside). -/
structure PerformanceWeightedRiskPolicy where
  portfolio_risk_budget : ℚ
  min_allocation_pct : ℚ
  min_trades_required : ℕ := 100

/-- `PerformanceWeightedRiskPolicy.allocate`.  The logging and the
`_last_allocation` change-detection cache do not affect the returned
allocation and are not modelled. -/
def allocate (p : PerformanceWeightedRiskPolicy) (tracker : TrackerState)
    (active_instruments : List String) : List (String × ℚ) :=
  if active_instruments.isEmpty then []
  else
    let k := active_instruments.length
    let metrics := (computeMetrics tracker active_instruments).1
    let insufficient_data := active_instruments.filter (fun inst =>
      match dictGet metrics inst with
      | none => true
      | some metric => metric.total_trades < p.min_trades_required)
    if ¬insufficient_data.isEmpty then
      dictOf (active_instruments.map
        (fun i => (i, p.portfolio_risk_budget / (k : ℚ))))
    else
      let scores := dictOf (active_instruments.map (fun inst =>
        (inst, max 0 ((dictGet metrics inst).getD
          emptyMetrics).return_to_risk_ratio)))
      let total_score := (scores.map Prod.snd).sum
      if total_score ≤ 0 then
        dictOf (active_instruments.map
          (fun i => (i, p.portfolio_risk_budget / (k : ℚ))))
      else
        let min_per_instrument := p.portfolio_risk_budget * p.min_allocation_pct
        let reserved := min_per_instrument * (k : ℚ)
        let remaining := p.portfolio_risk_budget - reserved
        if remaining < 0 then
          dictOf (active_instruments.map
            (fun i => (i, p.portfolio_risk_budget / (k : ℚ))))
        else
          dictOf (active_instruments.map (fun inst =>
            (inst, min_per_instrument +
              remaining * (((dictGet scores inst).getD 0) / total_score))))

theorem dictInsert_notMem (kvs : List (String × α)) (k : String) (v : α)
    (h : ∀ p ∈ kvs, p.1 ≠ k) : dictInsert kvs k v = kvs ++ [(k, v)] := by
  have hany : kvs.any (fun p => p.1 == k) = false := by
    rw [List.any_eq_false]
    intro p hp
    simpa using h p hp
  unfold dictInsert
  rw [hany]
  simp

theorem foldl_dictInsert_disjoint :
    ∀ (l acc : List (String × α)),
    (∀ p ∈ acc, ∀ q ∈ l, p.1 ≠ q.1) → (l.map Prod.fst).Nodup →
    l.foldl (fun a p => dictInsert a p.1 p.2) acc = acc ++ l
  | [], acc, _, _ => by simp
  | q :: l, acc, hdisj, hnd => by
    have hndc : q.1 ∉ l.map Prod.fst ∧ (l.map Prod.fst).Nodup :=
      List.nodup_cons.mp (by simpa using hnd)
    have hq : ∀ p ∈ acc, p.1 ≠ q.1 := fun p hp =>
      hdisj p hp q (List.mem_cons_self q l)
    have hstep : dictInsert acc q.1 q.2 = acc ++ [q] :=
      dictInsert_notMem acc q.1 q.2 hq
    have hdisj' : ∀ p ∈ acc ++ [q], ∀ r ∈ l, p.1 ≠ r.1 := by
      intro p hp r hr
      rcases List.mem_append.mp hp with hp | hp
      · exact hdisj p hp r (List.mem_cons_of_mem q hr)
      · have hpq : p = q := by simpa using hp
        subst hpq
        intro hcontra
        have hmem : p.1 ∈ l.map Prod.fst := by
          rw [hcontra]
          exact List.mem_map_of_mem Prod.fst hr
        exact hndc.1 hmem
    have hrec := foldl_dictInsert_disjoint l (acc ++ [q]) hdisj' hndc.2
    simp only [List.foldl_cons]
    rw [hstep, hrec]
    simp

theorem dictOf_nodup (l : List (String × α)) (h : (l.map Prod.fst).Nodup) :
    dictOf l = l := by
  unfold dictOf
  rw [foldl_dictInsert_disjoint l [] (by simp) h]
  simp

theorem dictGet_map_self (f : String → α) (l : List String) (i : String)
    (hi : i ∈ l) : dictGet (l.map (fun j => (j, f j))) i = some (f i) := by
  induction l with
  | nil => cases hi
  | cons a l ih =>
    by_cases ha : a = i
    · subst ha
      simp [dictGet, List.find?]
    · have hil : i ∈ l := by
        cases hi with
        | head => exact absurd rfl ha
        | tail _ h => exact h
      have hbeq : (a == i) = false := by simp [ha]
      simpa [dictGet, List.find?, hbeq] using ih hil

theorem sum_map_add (f g : α → ℚ) (l : List α) :
    (l.map (fun i => f i + g i)).sum = (l.map f).sum + (l.map g).sum := by
  induction l with
  | nil => simp
  | cons a l ih => simp [ih]; ring

theorem sum_map_const (c : ℚ) (l : List α) :
    (l.map (fun _ => c)).sum = (l.length : ℚ) * c := by
  induction l with
  | nil => simp
  | cons a l ih => simp [ih]; ring

theorem sum_map_mul_left (c : ℚ) (f : α → ℚ) (l : List α) :
    (l.map (fun i => c * f i)).sum = c * (l.map f).sum := by
  induction l with
  | nil => simp
  | cons a l ih => simp [ih]; ring

theorem sum_map_div (f : α → ℚ) (c : ℚ) (l : List α) :
    (l.map (fun i => f i / c)).sum = (l.map f).sum / c := by
  induction l with
  | nil => simp
  | cons a l ih => simp [ih]; ring

theorem pair_map_keys (f : String → α) (l : List String) :
    ((l.map (fun i => (i, f i))).map Prod.fst) = l := by
  induction l with
  | nil => rfl
  | cons a l ih => simp [ih]

theorem pair_map_snd (f : String → α) (l : List String) :
    ((l.map (fun i => (i, f i))).map Prod.snd) = l.map f := by
  rw [List.map_map]
  rfl

theorem equalSplit_sum (active : List String) (B : ℚ)
    (hne : active ≠ []) (hnd : active.Nodup) :
    ((dictOf (active.map (fun i => (i, B / (active.length : ℚ))))).map
      Prod.snd).sum = B := by
  rw [dictOf_nodup _ (by rw [pair_map_keys]; exact hnd), pair_map_snd,
    sum_map_const]
  have hk : (active.length : ℚ) ≠ 0 := by
    have hlen : active.length ≠ 0 := by
      intro h0
      exact hne (List.length_eq_zero.mp h0)
    exact_mod_cast hlen
  field_simp

/-- The sum of a dict of key/value pairs with duplicate-free keys is the sum
over the underlying list. -/
theorem dict_pair_sum (f : String → ℚ) (l : List String) (hnd : l.Nodup) :
    ((dictOf (l.map (fun i => (i, f i)))).map Prod.snd).sum = (l.map f).sum := by
  rw [dictOf_nodup _ (by rw [pair_map_keys]; exact hnd), pair_map_snd]

/-- The weighted branch of `allocate` sums to the budget: each of the `k`
instruments receives the reservation plus a share of the remainder
proportional to its normalized score. -/
theorem weighted_alloc_sum (active : List String) (hnd : active.Nodup)
    (M : String → ℚ) (B mn : ℚ) (hT : 0 < (active.map M).sum) :
    ((dictOf (active.map (fun inst =>
        (inst, mn + (B - mn * (active.length : ℚ)) *
          ((dictGet (dictOf (active.map (fun i => (i, M i)))) inst).getD 0 /
            ((dictOf (active.map (fun i => (i, M i)))).map
              Prod.snd).sum))))).map Prod.snd).sum = B := by
  have hq : dictOf (active.map (fun i => (i, M i))) =
      active.map (fun i => (i, M i)) :=
    dictOf_nodup _ (by rw [pair_map_keys]; exact hnd)
  simp only [hq]
  rw [dict_pair_sum _ _ hnd]
  simp only [pair_map_snd]
  have hcongr : active.map (fun inst =>
      mn + (B - mn * (active.length : ℚ)) *
        ((dictGet (active.map (fun i => (i, M i))) inst).getD 0 /
          (active.map M).sum)) =
      active.map (fun inst =>
        mn + (B - mn * (active.length : ℚ)) *
          (M inst / (active.map M).sum)) := by
    apply List.map_congr_left
    intro i hi
    rw [dictGet_map_self M active i hi]
    rfl
  rw [hcongr, sum_map_add, sum_map_const, sum_map_mul_left, sum_map_div,
    div_self (ne_of_gt hT)]
  ring

/-- Policy used by the C10 counterexample. -/
def policyC10 : PerformanceWeightedRiskPolicy :=
  { portfolio_risk_budget := 10, min_allocation_pct := 1/10 }

/-- Empty tracker used by the C10 counterexample and witness. -/
def trackerC10 : TrackerState := { windows := [] }

/-- C10 counterexample: on the duplicated (still non-empty) active list
`["A", "A"]` the equal-split fallback computes `budget/2` per *list
element* but the returned dict collapses the duplicate key, so the
allocations sum to half the budget, not the budget. -/
theorem allocate_sum_claim_counterexample :
    (["A", "A"] : List String) ≠ [] ∧
    ((allocate policyC10 trackerC10 ["A", "A"]).map Prod.snd).sum = 5 ∧
    policyC10.portfolio_risk_budget = 10 := by
  refine ⟨by decide, ?_, rfl⟩
  have h : allocate policyC10 trackerC10 ["A", "A"] = [("A", 5)] := by
    norm_num [allocate, computeMetrics, computeFresh, trackerC10, policyC10,
      dictOf, dictInsert, dictGet, emptyMetrics, List.foldl, List.find?]
  rw [h]
  norm_num

/-- C10 amended: for every *duplicate-free* non-empty active list and every
tracker state, the allocations returned by `allocate` sum exactly to
`portfolio_risk_budget` on every path (insufficient data, zero total score,
infeasible minimum, and the weighted path). -/
theorem allocate_sum_budget (p : PerformanceWeightedRiskPolicy)
    (tracker : TrackerState) (active : List String)
    (hne : active ≠ []) (hnd : active.Nodup) :
    ((allocate p tracker active).map Prod.snd).sum =
      p.portfolio_risk_budget := by
  have hactive : active.isEmpty = false := by
    cases active with
    | nil => exact absurd rfl hne
    | cons a l => rfl
  unfold allocate
  rw [hactive]
  simp only [Bool.false_eq_true, if_false]
  split
  · exact equalSplit_sum active _ hne hnd
  · split
    · exact equalSplit_sum active _ hne hnd
    · split
      · exact equalSplit_sum active _ hne hnd
      · rename_i hinsuff htot hrem
        have hT : 0 < (active.map (fun inst =>
            max 0 ((dictGet (computeMetrics tracker active).1 inst).getD
              emptyMetrics).return_to_risk_ratio)).sum := by
          have hq : dictOf (active.map (fun inst =>
              (inst, max 0 ((dictGet (computeMetrics tracker active).1
                inst).getD emptyMetrics).return_to_risk_ratio))) =
              active.map (fun inst =>
                (inst, max 0 ((dictGet (computeMetrics tracker active).1
                  inst).getD emptyMetrics).return_to_risk_ratio)) :=
            dictOf_nodup _ (by rw [pair_map_keys]; exact hnd)
          rw [hq, pair_map_snd] at htot
          exact lt_of_not_le htot
        exact weighted_alloc_sum active hnd _ _ _ hT

/-- Witness for `allocate_sum_budget`: two fresh instruments fall to the
equal split and receive 5 each out of a budget of 10. -/
theorem allocate_sum_budget_witness :
    ((allocate policyC10 trackerC10 ["A", "B"]).map Prod.snd).sum =
      policyC10.portfolio_risk_budget :=
  allocate_sum_budget policyC10 trackerC10 ["A", "B"] (by decide) (by decide)

/-! ## `tradedesk.portfolio.reconciliation.ReconciliationManager` -/

/-- `tradedesk.position.PositionTracker` state. -/
structure PositionTracker where
  direction : Option Direction := none
  size : Option ℚ := none
  entry_price : Option ℚ := none
  bars_held : ℤ := 0
  mfe_points : ℚ := 0
deriving DecidableEq, Repr

/-- `PositionTracker.reset`. -/
def PositionTracker.reset (_t : PositionTracker) : PositionTracker :=
  { direction := none, size := none, entry_price := none, bars_held := 0,
    mfe_points := 0 }

/-- `PositionTracker.is_flat`. -/
def PositionTracker.is_flat (t : PositionTracker) : Bool := t.direction.isNone

/-- `PositionTracker.open` (renamed: `open` is a Lean keyword). -/
def PositionTracker.openPosition (_t : PositionTracker) (direction : Direction)
    (size entry_price : ℚ) : PositionTracker :=
  { direction := some direction, size := some size,
    entry_price := some entry_price, bars_held := 0, mfe_points := 0 }

/-- Modelled from the spec: a strategy as seen through the
`ReconcilableStrategy` contract -- the reconciliation module imports this
protocol from `tradedesk.portfolio.types`, but neither the protocol
definition nor any live strategy implementation is under src/ (only the
tests carry one).  Per spec section 6 the contract exposes the strategy's
per-instrument `PositionTracker` plus the strategy-specific `entry_atr`
context. -/
structure Strategy where
  position : PositionTracker
  entry_atr : ℚ := 0
deriving DecidableEq, Repr

/-- Modelled from the spec: `ReconcilableStrategy.to_journal_entry` -- the
"serializable snapshot of one instrument's tracker state plus entryAtr"
(spec section 3); `updated_at` is a wall-clock timestamp with no effect on
reconciliation and is modelled as the empty string. -/
def Strategy.to_journal_entry (s : Strategy) (instrument : String) :
    JournalEntry :=
  { instrument := instrument,
    direction := s.position.direction.map Direction.value,
    size := s.position.size,
    entry_price := s.position.entry_price,
    bars_held := s.position.bars_held,
    mfe_points := s.position.mfe_points,
    entry_atr := s.entry_atr,
    updated_at := "" }

/-- The mutable state of a `ReconciliationManager` together with its
runner's strategy registry and the journal side effects: `journal_present`
is `_journal is not None`, and `journal_saves` logs each
`PositionJournal.save` call (the written snapshots, in order). -/
structure ManagerState where
  strategies : List (String × Strategy)
  recently_changed : List String := []
  journal_present : Bool := true
  journal_saves : List (List JournalEntry) := []
  candle_count : ℕ := 0
  reconcile_interval : ℕ := 4
  enable_event_subscription : Bool := true

/-- Python `set.add`. -/
def setAdd (l : List String) (x : String) : List String :=
  if l.contains x then l else l ++ [x]

/-- `ReconciliationManager.persist_positions`. -/
def persistPositions (st : ManagerState) (changed_epic : String) :
    ManagerState :=
  let st :=
    if changed_epic ≠ "" then
      { st with recently_changed := setAdd st.recently_changed changed_epic }
    else st
  if st.journal_present then
    { st with journal_saves :=
        st.journal_saves ++
          [st.strategies.map (fun p => p.2.to_journal_entry p.1)] }
  else st

/-- In-place mutation of one strategy of the registry. -/
def updateStrategy (strats : List (String × Strategy)) (epic : String)
    (f : Strategy → Strategy) : List (String × Strategy) :=
  strats.map (fun p => if p.1 == epic then (p.1, f p.2) else p)

/-- The body of the correction loop of `periodic_reconcile`, folded over
`result.entries`; the accumulator is `(strategies, corrected,
adopted_instruments)`.  `broker_by_instrument` is built from the unfiltered
broker list with dict last-writer-wins semantics. -/
def applyPeriodicCorrection (broker_positions : List BrokerPosition)
    (acc : List (String × Strategy) × Bool × List String)
    (entry : ReconciliationEntry) :
    List (String × Strategy) × Bool × List String :=
  let (strats, corrected, adopted) := acc
  if entry.discrepancy == DiscrepancyType.matched then (strats, corrected, adopted)
  else
    match dictGet strats entry.instrument with
    | none => (strats, corrected, adopted)
    | some _ =>
      match entry.discrepancy with
      | DiscrepancyType.phantom_local =>
        -- broker has no position -- reset local to flat
        (updateStrategy strats entry.instrument
          (fun s => { s with position := s.position.reset }), true, adopted)
      | DiscrepancyType.failed_exit | DiscrepancyType.orphan_broker =>
        -- broker has position we do not have locally -- adopt it
        let direction :=
          if entry.broker_direction == some "BUY" then Direction.long
          else Direction.short
        let bp := broker_positions.reverse.find?
          (fun bp => bp.instrument == entry.instrument)
        let entry_price := match bp with | some bp => bp.entry_price | none => 0
        (updateStrategy strats entry.instrument
          (fun s => { s with position :=
            (s.position.openPosition direction (entry.broker_size.getD 0)
              entry_price) }),
          true, setAdd adopted entry.instrument)
      | DiscrepancyType.size_mismatch =>
        -- trust broker size
        (updateStrategy strats entry.instrument
          (fun s => { s with position :=
            { s.position with size := entry.broker_size } }), true, adopted)
      | DiscrepancyType.direction_mismatch =>
        -- broker direction wins -- reset and re-open with broker state
        let direction :=
          if entry.broker_direction == some "BUY" then Direction.long
          else Direction.short
        let bp := broker_positions.reverse.find?
          (fun bp => bp.instrument == entry.instrument)
        let entry_price := match bp with | some bp => bp.entry_price | none => 0
        (updateStrategy strats entry.instrument
          (fun s => { s with position :=
            ((s.position.reset).openPosition direction
              (entry.broker_size.getD 0) entry_price) }),
          true, setAdd adopted entry.instrument)
      | DiscrepancyType.matched => (strats, corrected, adopted)

/-- `ReconciliationManager.post_warmup_check` restricted to its effect on
the strategy registry.  For each restored, non-flat strategy the method
fetches one candle and calls `check_restored_position`; that externally
implemented exit check (including its failure modes, which leave the
strategy untouched) is abstracted as the arbitrary per-instrument effect
`eff`. -/
def postWarmupCheck (eff : String → Strategy → Strategy)
    (restored_instruments : List String)
    (strats : List (String × Strategy)) : List (String × Strategy) :=
  strats.map (fun p =>
    if restored_instruments.contains p.1 then
      if p.2.position.is_flat then p else (p.1, eff p.1 p.2)
    else p)

/-- `ReconciliationManager.periodic_reconcile`.  The broker call
`client.get_positions()` is the only suspension point; its outcome is the
`broker_response` argument (`.error` models the raised transport
exception, which the source catches and turns into an early return before
any mutation). -/
def periodicReconcile (eff : String → Strategy → Strategy)
    (st : ManagerState)
    (broker_response : Except Unit (List BrokerPosition)) : ManagerState :=
  match broker_response with
  | Except.error _ => st   -- "Periodic reconciliation skipped"
  | Except.ok broker_positions =>
    -- build current local state
    let journal_positions : String → Option JournalEntry := fun epic =>
      (dictGet st.strategies epic).map (fun s => s.to_journal_entry epic)
    let managed_instruments := st.strategies.map Prod.fst
    -- exclude instruments with recent position changes, then clear the set
    let skipped := st.recently_changed
    let st1 := { st with recently_changed := [] }
    let managed_instruments :=
      managed_instruments.filter (fun i => ¬ skipped.contains i)
    let result := reconcile journal_positions broker_positions
      managed_instruments
    if result.is_clean then st1
    else
      let folded := result.entries.foldl
        (applyPeriodicCorrection broker_positions) (st1.strategies, false, [])
      let st2 := { st1 with strategies := folded.1 }
      let st3 := if folded.2.1 then persistPositions st2 "" else st2
      if folded.2.2.isEmpty then st3
      else { st3 with strategies := postWarmupCheck eff folded.2.2 st3.strategies }

/-- C2: a broker fetch failure makes `periodic_reconcile` return before any
mutation -- every strategy's tracker, the journal save log, and the
recently-changed set are all exactly as before. -/
theorem periodicReconcile_broker_failure_no_mutation
    (eff : String → Strategy → Strategy) (st : ManagerState) (e : Unit) :
    (∀ epic, dictGet (periodicReconcile eff st (Except.error e)).strategies
        epic = dictGet st.strategies epic) ∧
    (periodicReconcile eff st (Except.error e)).journal_saves =
      st.journal_saves ∧
    (periodicReconcile eff st (Except.error e)).recently_changed =
      st.recently_changed := by
  exact ⟨fun _ => rfl, rfl, rfl⟩

theorem find?_map_keyfix (g : String × Strategy → String × Strategy)
    (a : String) (hg : ∀ p, (g p).1 = p.1) (hv : ∀ p, p.1 = a → g p = p) :
    ∀ l : List (String × Strategy),
      (l.map g).find? (fun p => p.1 == a) = l.find? (fun p => p.1 == a)
  | [] => rfl
  | p :: l => by
    by_cases hpa : p.1 = a
    · rw [List.map_cons,
        List.find?_cons_of_pos _ (by simp [hg, hpa]),
        List.find?_cons_of_pos _ (by simp [hpa]),
        hv p hpa]
    · rw [List.map_cons,
        List.find?_cons_of_neg _ (by simp [hg, hpa]),
        List.find?_cons_of_neg _ (by simp [hpa])]
      exact find?_map_keyfix g a hg hv l

theorem dictGet_updateStrategy_ne (strats : List (String × Strategy))
    (epic a : String) (f : Strategy → Strategy) (h : epic ≠ a) :
    dictGet (updateStrategy strats epic f) a = dictGet strats a := by
  unfold dictGet updateStrategy
  rw [find?_map_keyfix _ a (fun p => by split <;> rfl)
    (fun p hpa => by
      have hfalse : (p.1 == epic) = false := by
        simp [hpa, Ne.symm h]
      simp [hfalse])]

theorem dictGet_postWarmup_notMem (eff : String → Strategy → Strategy)
    (restored : List String) (strats : List (String × Strategy)) (a : String)
    (ha : restored.contains a = false) :
    dictGet (postWarmupCheck eff restored strats) a = dictGet strats a := by
  unfold dictGet postWarmupCheck
  rw [find?_map_keyfix _ a
    (fun p => by
      split
      · split <;> rfl
      · rfl)
    (fun p hpa => by
      rw [hpa, ha]
      simp)]

theorem mem_setAdd_ne (l : List String) (x a : String) (h : x ≠ a) :
    a ∈ setAdd l x → a ∈ l := by
  unfold setAdd
  split
  · exact id
  · intro ha
    rcases List.mem_append.mp ha with h1 | h1
    · exact h1
    · exact absurd (by simpa using h1) (Ne.symm h)

theorem applyPeriodicCorrection_ne (bps : List BrokerPosition)
    (acc : List (String × Strategy) × Bool × List String)
    (entry : ReconciliationEntry) (a : String) (h : entry.instrument ≠ a) :
    dictGet (applyPeriodicCorrection bps acc entry).1 a = dictGet acc.1 a ∧
    (a ∈ (applyPeriodicCorrection bps acc entry).2.2 → a ∈ acc.2.2) := by
  obtain ⟨strats, corrected, adopted⟩ := acc
  unfold applyPeriodicCorrection
  dsimp only
  split
  · exact ⟨rfl, id⟩
  · split
    · exact ⟨rfl, id⟩
    · split
      · exact ⟨by dsimp only; exact dictGet_updateStrategy_ne _ _ _ _ h,
          by dsimp only; exact id⟩
      · exact ⟨by dsimp only; exact dictGet_updateStrategy_ne _ _ _ _ h,
          by dsimp only; exact mem_setAdd_ne _ _ _ h⟩
      · exact ⟨by dsimp only; exact dictGet_updateStrategy_ne _ _ _ _ h,
          by dsimp only; exact mem_setAdd_ne _ _ _ h⟩
      · exact ⟨by dsimp only; exact dictGet_updateStrategy_ne _ _ _ _ h,
          by dsimp only; exact id⟩
      · exact ⟨by dsimp only; exact dictGet_updateStrategy_ne _ _ _ _ h,
          by dsimp only; exact mem_setAdd_ne _ _ _ h⟩
      · exact ⟨rfl, id⟩

theorem foldl_applyPeriodicCorrection_ne (bps : List BrokerPosition)
    (entries : List ReconciliationEntry) (a : String)
    (h : ∀ e ∈ entries, e.instrument ≠ a) :
    ∀ acc : List (String × Strategy) × Bool × List String,
      dictGet (entries.foldl (applyPeriodicCorrection bps) acc).1 a =
        dictGet acc.1 a ∧
      (a ∈ (entries.foldl (applyPeriodicCorrection bps) acc).2.2 →
        a ∈ acc.2.2) := by
  induction entries with
  | nil => exact fun acc => ⟨rfl, id⟩
  | cons e es ih =>
    intro acc
    have hstep := applyPeriodicCorrection_ne bps acc e a
      (h e (List.mem_cons_self e es))
    have hrest := ih (fun e' he' => h e' (List.mem_cons_of_mem e he'))
      (applyPeriodicCorrection bps acc e)
    refine ⟨?_, ?_⟩
    · rw [List.foldl_cons, hrest.1, hstep.1]
    · intro hmem
      exact hstep.2 (hrest.2 (by rwa [List.foldl_cons] at hmem))

theorem persistPositions_empty_recently (st : ManagerState) :
    (persistPositions st "").recently_changed = st.recently_changed := by
  unfold persistPositions
  rw [if_neg (show ¬(("" : String) ≠ "") from by simp)]
  dsimp only
  split <;> rfl

theorem persistPositions_strategies (st : ManagerState) (c : String) :
    (persistPositions st c).strategies = st.strategies := by
  unfold persistPositions
  split <;> (dsimp only; split <;> rfl)

/-- C5: an instrument in the recently-changed set is excluded from the
periodic pass -- its tracker is left untouched even when the broker reports
it flat while the local side holds an open LONG -- and the recently-changed
set is empty when the call returns. -/
theorem periodicReconcile_excludes_recently_changed
    (eff : String → Strategy → Strategy) (st : ManagerState)
    (bps : List BrokerPosition) (a : String) (sA : Strategy)
    (ha : dictGet st.strategies a = some sA)
    (hlong : sA.position.direction = some Direction.long)
    (hrc : a ∈ st.recently_changed)
    (hbroker : ∀ bp ∈ bps, bp.instrument ≠ a) :
    dictGet (periodicReconcile eff st (Except.ok bps)).strategies a =
      some sA ∧
    (periodicReconcile eff st (Except.ok bps)).recently_changed = [] := by
  have hmanaged : a ∉ ((st.strategies.map Prod.fst).filter
      (fun i => ¬ st.recently_changed.contains i)) := by
    intro hmem
    have hpred := (List.mem_filter.mp hmem).2
    simp at hpred
    exact hpred hrc
  have hentries : ∀ e ∈ (reconcile
      (fun epic => (dictGet st.strategies epic).map
        (fun s => s.to_journal_entry epic)) bps
      ((st.strategies.map Prod.fst).filter
        (fun i => ¬ st.recently_changed.contains i))).entries,
      e.instrument ≠ a := by
    intro e he hcontra
    have hmem : e.instrument ∈ (reconcile
        (fun epic => (dictGet st.strategies epic).map
          (fun s => s.to_journal_entry epic)) bps
        ((st.strategies.map Prod.fst).filter
          (fun i => ¬ st.recently_changed.contains i))).entries.map
          ReconciliationEntry.instrument :=
      List.mem_map_of_mem ReconciliationEntry.instrument he
    rw [reconcile_entries_map_instrument] at hmem
    rw [mem_allInstruments_iff] at hmem
    rw [hcontra] at hmem
    exact hmanaged hmem
  unfold periodicReconcile
  dsimp only
  split
  · exact ⟨ha, rfl⟩
  · have hfold := foldl_applyPeriodicCorrection_ne bps _ a hentries
      (st.strategies, false, [])
    have hAc : ∀ adopted : List String,
        (a ∈ adopted → a ∈ ([] : List String)) →
        adopted.contains a = false := by
      intro adopted hmem
      rw [Bool.eq_false_iff]
      intro hc
      exact absurd (hmem (by simpa using hc)) (by simp)
    constructor
    · split
      · split
        · rw [persistPositions_strategies]
          exact hfold.1.trans ha
        · exact hfold.1.trans ha
      · dsimp only
        rw [dictGet_postWarmup_notMem _ _ _ _ (hAc _ hfold.2)]
        split
        · rw [persistPositions_strategies]
          exact hfold.1.trans ha
        · exact hfold.1.trans ha
    · split
      · split
        · rw [persistPositions_empty_recently]
        · rfl
      · dsimp only
        split
        · rw [persistPositions_empty_recently]
        · rfl

/-- Strategy used by the C5 witness: open LONG, size 1, entry 100. -/
def stratC5 : Strategy :=
  { position := { direction := some Direction.long, size := some 1,
                  entry_price := some 100 } }

/-- Manager used by the C5 witness: "A" managed, recently changed. -/
def managerC5 : ManagerState :=
  { strategies := [("A", stratC5)], recently_changed := ["A"] }

/-- Witness for `periodicReconcile_excludes_recently_changed`: the broker
reports no positions at all, "A" is open LONG locally and recently
changed; the pass leaves "A" untouched and clears the set. -/
theorem periodicReconcile_excludes_recently_changed_witness :
    dictGet (periodicReconcile (fun _ s => s) managerC5
        (Except.ok [])).strategies "A" = some stratC5 ∧
    (periodicReconcile (fun _ s => s) managerC5
        (Except.ok [])).recently_changed = [] :=
  periodicReconcile_excludes_recently_changed (fun _ s => s) managerC5 []
    "A" stratC5 rfl rfl (by decide) (by simp)

/-! ## Reconcile gating (`should_reconcile`) -/

/-- `ReconciliationManager._should_reconcile_now`. -/
def shouldReconcileNow (st : ManagerState) : Bool :=
  st.journal_present && (st.candle_count % st.reconcile_interval == 0)

/-- `ReconciliationManager.should_reconcile`: increments the candle counter
only when event subscription is disabled (backward-compat mode; with
subscription enabled the counter is advanced by the candle-close event
handler instead), then checks the modulo gate. -/
def shouldReconcile (st : ManagerState) : Bool × ManagerState :=
  let st :=
    if ¬ st.enable_event_subscription then
      { st with candle_count := st.candle_count + 1 }
    else st
  (shouldReconcileNow st, st)

/-- Manager state after `n` successive `should_reconcile` calls. -/
def callsFrom (st : ManagerState) : ℕ → ManagerState
  | 0 => st
  | n + 1 => (shouldReconcile (callsFrom st n)).2

/-- Manager in the default configuration (event subscription enabled,
journal present, interval 4) used by the C8 counterexample. -/
def managerC8 : ManagerState := { strategies := [] }

/-- C8 counterexample: on a freshly constructed manager in the default
configuration (reconcile_interval = 4, event subscription enabled), the
*first* call to `should_reconcile` already returns true -- the claim
demands the first N-1 = 3 calls return false.  With subscription enabled
`should_reconcile` does not advance the counter, so the counter stays at 0
and `0 % 4 == 0` holds on every call. -/
theorem shouldReconcile_claim_counterexample :
    managerC8.reconcile_interval = 4 ∧
    managerC8.enable_event_subscription = true ∧
    (shouldReconcile managerC8).1 = true ∧
    (shouldReconcile (callsFrom managerC8 1)).1 = true := by
  decide

theorem callsFrom_compat (strats : List (String × Strategy))
    (rc : List String) (jp : Bool) (js : List (List JournalEntry))
    (cc ri : ℕ) : ∀ n : ℕ,
    callsFrom ⟨strats, rc, jp, js, cc, ri, false⟩ n =
      ⟨strats, rc, jp, js, cc + n, ri, false⟩
  | 0 => rfl
  | n + 1 => by
    show (shouldReconcile (callsFrom _ n)).2 = _
    rw [callsFrom_compat strats rc jp js cc ri n]
    rfl

/-- C8 amended: on a manager configured with a journal and with event
subscription *disabled* (the mode in which `should_reconcile` itself counts
calls), starting from a fresh counter, the k-th successive call returns
true iff k is a multiple of the reconcile interval -- i.e. true exactly on
every N-th call, cyclically.  (With the default event subscription enabled,
or with no journal, the claimed call pattern fails: see
`shouldReconcile_claim_counterexample`.) -/
theorem shouldReconcile_modulo (st0 : ManagerState) (k : ℕ)
    (hj : st0.journal_present = true)
    (hsub : st0.enable_event_subscription = false)
    (hc : st0.candle_count = 0)
    (hN : 1 ≤ st0.reconcile_interval)
    (hk : 1 ≤ k) :
    ((shouldReconcile (callsFrom st0 (k - 1))).1 = true ↔
      k % st0.reconcile_interval = 0) := by
  obtain ⟨strats, rc, jp, js, cc, ri, ees⟩ := st0
  dsimp only at hj hsub hc ⊢
  subst hj
  subst hsub
  subst hc
  rw [callsFrom_compat]
  unfold shouldReconcile shouldReconcileNow
  have hcount : k - 1 + 1 = k := by omega
  simp [hcount]

/-- Manager used by the C8 witness: interval 2, compat mode. -/
def managerC8w : ManagerState :=
  { strategies := [], reconcile_interval := 2,
    enable_event_subscription := false }

/-- Witness for `shouldReconcile_modulo`: with interval 2 the second call
returns true. -/
theorem shouldReconcile_modulo_witness :
    (shouldReconcile (callsFrom managerC8w (2 - 1))).1 = true :=
  (shouldReconcile_modulo managerC8w 2 rfl rfl rfl (by decide)
    (by decide)).mpr (by decide)

end Tradedesk

